import Mathlib

/-!
Verification of the `.mdc` document validator.

A shallow embedding of `validate_mdc.py`. The validator takes the raw text
of a rule document and returns a pair `(is_valid, errors)`. Text is modelled
as `String` (a list of characters in this Lean version); the Python string
operations the validator uses (`startswith`, `split` with a maxsplit cap,
`splitlines(keepends=True)`, `strip`, slicing, `repr`) are given explicit
executable definitions over `List Char`. The external YAML decoder
(`yaml.safe_load`) is modelled for the flat block-mapping subset that rule
documents use: blank text decodes to null, a sequence of `key: value` lines
decodes to a mapping whose scalar values cover booleans, integers,
double-quoted strings, plain strings, and flow sequences `[a, b]` of such
scalars; any other text decodes to a plain scalar string. The whitespace and
newline repertoires are the ASCII ones (`\n`, `\r\n`, `\r` line ends).
-/

set_option maxHeartbeats 1000000

/-- The delimiter token `---` as a character list. -/
def dashes : List Char := ['-', '-', '-']

/-- The Python whitespace test used by `str.strip()` (ASCII repertoire). -/
def pyIsSpace (c : Char) : Bool :=
  c = ' ' || c = '\t' || c = '\n' || c = '\r' || c = '\x0b' || c = '\x0c'

/-- Python `str.strip()` on a character list. -/
def pyStrip (l : List Char) : List Char :=
  ((l.dropWhile pyIsSpace).reverse.dropWhile pyIsSpace).reverse

/-- If `p` is a leading segment of `l`, return the remainder. -/
def matchHead : List Char → List Char → Option (List Char)
  | [], l => some l
  | _ :: _, [] => none
  | p :: ps, c :: cs => if c = p then matchHead ps cs else none

/-- Python `s.startswith(p)`. -/
def listStartsWith (p l : List Char) : Bool := (matchHead p l).isSome

/-- Leftmost occurrence of `sep` in a string: `some (before, after)`. -/
def findSep (sep : List Char) : List Char → Option (List Char × List Char)
  | [] => if sep.isEmpty then some ([], []) else none
  | c :: cs =>
    match matchHead sep (c :: cs) with
    | some rest => some ([], rest)
    | none =>
      match findSep sep cs with
      | some (pre, post) => some (c :: pre, post)
      | none => none

/-- Python `s.split(sep, maxsplit)` for a nonempty separator. -/
def splitSep (sep : List Char) : Nat → List Char → List (List Char)
  | 0, s => [s]
  | n + 1, s =>
    match findSep sep s with
    | none => [s]
    | some (pre, post) => pre :: splitSep sep n post

/-- Worker for `splitlinesKeepends`: `acc` is the reversed current line. -/
def splitlinesAux : List Char → List Char → List (List Char)
  | [], [] => []
  | [], acc => [acc.reverse]
  | '\r' :: '\n' :: rest, acc => (acc.reverse ++ ['\r', '\n']) :: splitlinesAux rest []
  | '\n' :: rest, acc => (acc.reverse ++ ['\n']) :: splitlinesAux rest []
  | '\r' :: rest, acc => (acc.reverse ++ ['\r']) :: splitlinesAux rest []
  | c :: rest, acc => splitlinesAux rest (c :: acc)

/-- Python `s.splitlines(keepends=True)` over `\n`, `\r\n`, `\r` line ends. -/
def splitlinesKeepends (l : List Char) : List (List Char) := splitlinesAux l []

/-- Decoded YAML values, as the validator distinguishes them
(`isinstance` checks for `str`, `list`, `bool`, `dict`). -/
inductive Yaml : Type where
  | null : Yaml
  | bool : Bool → Yaml
  | int : Int → Yaml
  | str : String → Yaml
  | list : List Yaml → Yaml
  | dict : List (String × Yaml) → Yaml

def Yaml.isStr : Yaml → Bool
  | .str _ => true
  | _ => false

def Yaml.isList : Yaml → Bool
  | .list _ => true
  | _ => false

def Yaml.isBool : Yaml → Bool
  | .bool _ => true
  | _ => false

/-- Python `key in d` / `d[key]` on a decoded mapping (keys are unique in a
decoded YAML mapping; lookup returns the first binding). -/
def lookupKey : List (String × Yaml) → String → Option Yaml
  | [], _ => none
  | (k, v) :: rest, key => if k = key then some v else lookupKey rest key

/-- Split a character list on a separator character (no cap). -/
def splitChar (c : Char) : List Char → List (List Char)
  | [] => [[]]
  | x :: xs =>
    let r := splitChar c xs
    if x = c then [] :: r
    else
      match r with
      | [] => [[x]]
      | h :: t => (x :: h) :: t

def charsToNat (l : List Char) : Nat :=
  l.foldl (fun n c => n * 10 + (c.toNat - 48)) 0

/-- Decode one scalar YAML value (no flow sequences). -/
def parseAtom (l : List Char) : Yaml :=
  let t := pyStrip l
  if t = [] then .null
  else if t = "true".data then .bool true
  else if t = "false".data then .bool false
  else if t = "null".data ∨ t = "~".data then .null
  else if 2 ≤ t.length ∧ t.headD ' ' = '"' ∧ t.getLast? = some '"' then
    .str (String.mk ((t.drop 1).dropLast))
  else if t.all Char.isDigit then .int (charsToNat t)
  else .str (String.mk t)

/-- Decode one YAML value: a flow sequence `[x, y]` of scalars, or a scalar. -/
def parseVal (l : List Char) : Yaml :=
  let t := pyStrip l
  if t.headD ' ' = '[' ∧ t.getLast? = some ']' then
    .list ((splitChar ',' ((t.drop 1).dropLast)).filterMap
      (fun e => if pyStrip e = [] then none else some (parseAtom e)))
  else parseAtom l

/-- Split at the first occurrence of `c`: `some (before, after)`. -/
def breakAt (c : Char) : List Char → Option (List Char × List Char)
  | [] => none
  | x :: xs =>
    if x = c then some ([], xs)
    else
      match breakAt c xs with
      | none => none
      | some (a, b) => some (x :: a, b)

/-- Model of the external YAML decoder (`yaml.safe_load`) on the flat
block-mapping subset rule documents use. Blank or empty text decodes to
null; text whose non-blank lines all carry a colon decodes to a mapping of
`key: value` lines; anything else decodes to a plain scalar string. -/
def yaml_safe_load (l : List Char) : Except String Yaml :=
  let ls := (splitChar '\n' l).filter (fun x => !(pyStrip x).isEmpty)
  if ls.isEmpty then .ok .null
  else if ls.all (fun x => x.contains ':') then
    .ok (.dict (ls.map (fun x =>
      match breakAt ':' x with
      | some (k, v) => (String.mk (pyStrip k), parseVal v)
      | none => (String.mk (pyStrip x), Yaml.null))))
  else .ok (.str (String.mk (pyStrip l)))

def noStartMsg : String := "File does not start with \x27---\x27"

def missingClosingMsg : String := "Missing closing \x27---\x27 delimiter"

def notDictMsg : String := "Frontmatter is not a dictionary"

def yamlErrMsg (e : String) : String := "YAML syntax error in frontmatter: " ++ e

def missingDescMsg : String := "Missing required field: \x27description\x27"

def descTypeMsg : String := "Field \x27description\x27 must be a string"

def descEmptyMsg : String := "Field \x27description\x27 cannot be empty"

def missingGlobsMsg : String := "Missing required field: \x27globs\x27"

def globsTypeMsg : String := "Field \x27globs\x27 must be a list/array"

def missingAlwaysMsg : String := "Missing required field: \x27alwaysApply\x27"

def alwaysTypeMsg : String := "Field \x27alwaysApply\x27 must be a boolean"

def closingScanMsg : String := "Could not find closing \x27---\x27 in file"

def noContentMsg : String := "No content after frontmatter"

def noContentAfterBlankMsg : String := "No content after blank line"

def blankMsg (n : Nat) : String :=
  "Missing blank line after frontmatter (line " ++ toString n ++ " is not blank)"

def squote : Char := Char.ofNat 39

/-- One character of Python `repr` output under quote character `q`. -/
def pyReprChar (q c : Char) : List Char :=
  if c = '\\' then ['\\', '\\']
  else if c = '\n' then ['\\', 'n']
  else if c = '\r' then ['\\', 'r']
  else if c = '\t' then ['\\', 't']
  else if c = q then ['\\', q]
  else [c]

/-- Python `repr` of a string (printable-ASCII repertoire): single quotes
unless the text holds a single quote and no double quote. -/
def pyRepr (l : List Char) : List Char :=
  let q := if l.contains squote && !(l.contains '"') then '"' else squote
  q :: (l.map (pyReprChar q)).flatten ++ [q]

def headingMsg (n : Nat) (line : List Char) : String :=
  "Content does not start with heading \x27#\x27 (line " ++ toString n ++
    " starts with: " ++ String.mk (pyRepr (line.take 50)) ++ ")"

/-- The `description` checks (presence, string type, non-blank after strip). -/
def descriptionErrors (d : List (String × Yaml)) : List String :=
  match lookupKey d "description" with
  | none => [missingDescMsg]
  | some (.str s) => if pyStrip s.data = [] then [descEmptyMsg] else []
  | some _ => [descTypeMsg]

/-- The `globs` checks (presence, list type). -/
def globsErrors (d : List (String × Yaml)) : List String :=
  match lookupKey d "globs" with
  | none => [missingGlobsMsg]
  | some (.list _) => []
  | some _ => [globsTypeMsg]

/-- The `alwaysApply` checks (presence, boolean type). -/
def alwaysApplyErrors (d : List (String × Yaml)) : List String :=
  match lookupKey d "alwaysApply" with
  | none => [missingAlwaysMsg]
  | some (.bool _) => []
  | some _ => [alwaysTypeMsg]

/-- All schema checks, in source order; each runs whatever the others found. -/
def schemaErrors (d : List (String × Yaml)) : List String :=
  descriptionErrors d ++ globsErrors d ++ alwaysApplyErrors d

/-- Index of the first line past line 0 whose stripped text is `---`. -/
def findClosing (lines : List (List Char)) : Option Nat :=
  match lines with
  | [] => none
  | _ :: rest => (rest.findIdx? (fun l => pyStrip l = dashes)).map (· + 1)

/-- The positional formatting checks on the raw line list. -/
def formattingErrors (lines : List (List Char)) : List String :=
  match findClosing lines with
  | none => [closingScanMsg]
  | some i =>
    if lines.length ≤ i + 1 then [noContentMsg]
    else
      (if pyStrip (lines.getD (i + 1) []) = [] then [] else [blankMsg (i + 2)]) ++
      (if lines.length ≤ i + 2 then [noContentAfterBlankMsg]
       else if (pyStrip (lines.getD (i + 2) [])).headD ' ' = '#' then []
       else [headingMsg (i + 3) (lines.getD (i + 2) [])])

/-- `validate_mdc_file` from `validate_mdc.py`, on the document text (the
the file read belongs to the caller; see `validate_mdc_input`). -/
def validate_mdc_file (content : String) : Bool × List String :=
  let lines := splitlinesKeepends content.data
  if listStartsWith dashes content.data = false then (false, [noStartMsg])
  else
    let parts := splitSep dashes 2 content.data
    if parts.length < 3 then (false, [missingClosingMsg])
    else
      match yaml_safe_load (parts.getD 1 []) with
      | .error e => (false, [yamlErrMsg e])
      | .ok (.dict d) =>
        let errors := schemaErrors d ++ formattingErrors lines
        (errors.isEmpty, errors)
      | .ok _ => (false, [notDictMsg])

/-- The validator including the read step: a read failure becomes the single
synthetic defect of the `except` branch. -/
def validate_mdc_input (input : Except String String) : Bool × List String :=
  match input with
  | .error e => (false, ["Error reading file: " ++ e])
  | .ok content => validate_mdc_file content

/-- A document assembled from opening delimiter line, metadata text, closing
delimiter line, blank separator line, and body. -/
def mkDoc (m h : String) : String := "---\n" ++ m ++ "---\n\n" ++ h

/-- `u` occurs as a contiguous run inside `l`. -/
def occursIn (u l : List Char) : Prop := ∃ p q, l = p ++ u ++ q

/-- A delimiter line as split off by `splitlinesKeepends`. -/
def dashNL : List Char := ['-', '-', '-', '\n']

/-! ## Segment search: `matchHead`, `findSep`, `splitSep` -/

theorem matchHead_eq_some (p : List Char) :
    ∀ l r, matchHead p l = some r ↔ l = p ++ r := by
  induction p with
  | nil => intro l r; simp [matchHead]
  | cons a ps ih =>
    intro l r
    cases l with
    | nil => simp [matchHead]
    | cons c cs =>
      by_cases hc : c = a
      · subst hc; simp [matchHead, ih]
      · simp [matchHead, hc, Ne.symm hc]

theorem listStartsWith_append (p r : List Char) : listStartsWith p (p ++ r) = true := by
  have h : matchHead p (p ++ r) = some r := (matchHead_eq_some p _ r).mpr rfl
  simp [listStartsWith, h]

theorem findSep_dashes_at_start (b : List Char) :
    findSep dashes (dashes ++ b) = some ([], b) := by
  have h : matchHead dashes ('-' :: '-' :: '-' :: b) = some b :=
    (matchHead_eq_some dashes _ b).mpr rfl
  show findSep dashes ('-' :: '-' :: '-' :: b) = some ([], b)
  simp [findSep, h]

theorem findSep_cons_none {sep : List Char} {c : Char} {cs : List Char}
    (h : findSep sep (c :: cs) = none) : findSep sep cs = none := by
  rcases hf : findSep sep cs with _ | pp
  · rfl
  · rcases hm : matchHead sep (c :: cs) with _ | r
    · simp [findSep, hm, hf] at h
    · simp [findSep, hm] at h

theorem findSep_append_dashes :
    ∀ (a b : List Char), a.getLast? = some '\n' → findSep dashes a = none →
      findSep dashes (a ++ (dashes ++ b)) = some (a, b) := by
  intro a
  induction a with
  | nil => intro b ha _; simp at ha
  | cons c a' ih =>
    intro b ha hno
    have hmh : matchHead dashes (c :: (a' ++ (dashes ++ b))) = none := by
      rcases hm : matchHead dashes (c :: (a' ++ (dashes ++ b))) with _ | r
      · rfl
      · exfalso
        have heq := (matchHead_eq_some dashes _ r).mp hm
        rcases a' with _ | ⟨c2, a''⟩
        · simp [dashes] at heq
          obtain ⟨hc, -⟩ := heq
          simp [hc] at ha
        · rcases a'' with _ | ⟨c3, a3⟩
          · simp [dashes] at heq
            obtain ⟨-, hc2, -⟩ := heq
            simp [hc2] at ha
          · simp [dashes] at heq
            obtain ⟨hc, hc2, hc3, -⟩ := heq
            rw [show c :: c2 :: c3 :: a3 = dashes ++ a3 by simp [dashes, hc, hc2, hc3]] at hno
            rw [findSep_dashes_at_start] at hno
            exact Option.noConfusion hno
    have hstep : findSep dashes (c :: (a' ++ (dashes ++ b))) =
        match findSep dashes (a' ++ (dashes ++ b)) with
        | some (pre, post) => some (c :: pre, post)
        | none => none := by
      simp [findSep, hmh]
    rcases a' with _ | ⟨c2, a''⟩
    · simp only [List.cons_append, List.nil_append] at hstep ⊢
      rw [hstep]
      simp [findSep_dashes_at_start]
    · have ha' : (c2 :: a'').getLast? = some '\n' := by
        rw [List.getLast?_cons_cons] at ha
        exact ha
      have hno' : findSep dashes (c2 :: a'') = none := findSep_cons_none hno
      have hih := ih b ha' hno'
      simp only [List.cons_append] at hstep hih ⊢
      rw [hstep, hih]

theorem splitSep_doc (a b : List Char) (ha : a.getLast? = some '\n')
    (hno : findSep dashes a = none) :
    splitSep dashes 2 (dashes ++ (a ++ (dashes ++ b))) = [[], a, b] := by
  have h1 : findSep dashes (dashes ++ (a ++ (dashes ++ b))) =
      some ([], a ++ (dashes ++ b)) := findSep_dashes_at_start _
  have h2 : findSep dashes (a ++ (dashes ++ b)) = some (a, b) :=
    findSep_append_dashes a b ha hno
  simp [splitSep, h1, h2]

theorem findSep_isSome_of_occursIn (a : List Char) (h : occursIn dashes a) :
    findSep dashes a ≠ none := by
  obtain ⟨p, q, rfl⟩ := h
  induction p with
  | nil => simp [findSep_dashes_at_start]
  | cons c p' ih =>
    intro hcon
    exact ih (findSep_cons_none hcon)

theorem not_occursIn_of_findSep_none {a : List Char} (h : findSep dashes a = none) :
    ¬ occursIn dashes a :=
  fun hocc => findSep_isSome_of_occursIn a hocc h

/-! ## Line splitting -/

theorem splitlinesAux_flatten : ∀ (x acc : List Char),
    (splitlinesAux x acc).flatten = acc.reverse ++ x := by
  intro x acc
  induction x, acc using splitlinesAux.induct <;> simp_all [splitlinesAux]

theorem splitlines_flatten (x : List Char) : (splitlinesKeepends x).flatten = x := by
  simpa using splitlinesAux_flatten x []

theorem splitlinesAux_append : ∀ (x acc : List Char), x.getLast? = some '\n' →
    ∀ y, splitlinesAux (x ++ y) acc = splitlinesAux x acc ++ splitlinesAux y [] := by
  intro x acc
  induction x, acc using splitlinesAux.induct with
  | case1 => intro h; simp at h
  | case2 acc hne => intro h; simp at h
  | case3 rest acc ih =>
    intro h y
    rcases rest with _ | ⟨r0, rr⟩
    · simp [splitlinesAux]
    · have h' : (r0 :: rr).getLast? = some '\n' := by
        rw [List.getLast?_cons_cons, List.getLast?_cons_cons] at h
        exact h
      have hih := ih h' y
      simp only [List.cons_append] at hih ⊢
      rw [splitlinesAux.eq_3, splitlinesAux.eq_3, hih]
      simp
  | case4 rest acc ih =>
    intro h y
    rcases rest with _ | ⟨r0, rr⟩
    · simp [splitlinesAux]
    · have h' : (r0 :: rr).getLast? = some '\n' := by
        rw [List.getLast?_cons_cons] at h
        exact h
      have hih := ih h' y
      simp only [List.cons_append] at hih ⊢
      rw [splitlinesAux.eq_4, splitlinesAux.eq_4, hih]
      simp
  | case5 rest acc hr ih =>
    intro h y
    rcases rest with _ | ⟨r0, rr⟩
    · simp at h
    · have hr0 : r0 ≠ '\n' := fun he => hr rr (by rw [he])
      have h' : (r0 :: rr).getLast? = some '\n' := by
        rw [List.getLast?_cons_cons] at h
        exact h
      have hih := ih h' y
      simp only [List.cons_append] at hih ⊢
      rw [splitlinesAux.eq_5 acc (r0 :: (rr ++ y))
          (fun r1 he => hr0 (List.cons_eq_cons.mp he).1),
        splitlinesAux.eq_5 acc (r0 :: rr)
          (fun r1 he => hr0 (List.cons_eq_cons.mp he).1),
        hih]
      simp
  | case6 c rest acc hcr hn hr ih =>
    intro h y
    rcases rest with _ | ⟨r0, rr⟩
    · simp at h
      exact absurd h hn
    · have h' : (r0 :: rr).getLast? = some '\n' := by
        rw [List.getLast?_cons_cons] at h
        exact h
      have hih := ih h' y
      simp only [List.cons_append] at hih ⊢
      rw [splitlinesAux.eq_6 acc c (r0 :: (rr ++ y)) (fun r1 hc _ => hr hc) hn hr,
        splitlinesAux.eq_6 acc c (r0 :: rr) (fun r1 hc _ => hr hc) hn hr, hih]

theorem splitlines_append (x y : List Char) (hx : x.getLast? = some '\n') :
    splitlinesKeepends (x ++ y) = splitlinesKeepends x ++ splitlinesKeepends y :=
  splitlinesAux_append x [] hx y

theorem splitlines_ne_nil {x : List Char} (hx : x ≠ []) : splitlinesKeepends x ≠ [] := by
  intro h
  apply hx
  have := splitlines_flatten x
  rw [h] at this
  simpa using this.symm

theorem mem_splitlines_occursIn {x l : List Char} (hl : l ∈ splitlinesKeepends x) :
    ∃ p q, x = p ++ l ++ q := by
  obtain ⟨s, t, hst⟩ := List.append_of_mem hl
  refine ⟨s.flatten, t.flatten, ?_⟩
  have := splitlines_flatten x
  rw [hst] at this
  simp only [List.flatten_append, List.flatten_cons] at this
  rw [← this]
  simp

theorem pyStrip_infix (l : List Char) : ∃ p q, l = p ++ pyStrip l ++ q := by
  refine ⟨l.takeWhile pyIsSpace,
    ((l.dropWhile pyIsSpace).reverse.takeWhile pyIsSpace).reverse, ?_⟩
  have h2 := congrArg List.reverse
    (List.takeWhile_append_dropWhile pyIsSpace (l.dropWhile pyIsSpace).reverse)
  simp only [List.reverse_append, List.reverse_reverse] at h2
  conv_lhs => rw [← List.takeWhile_append_dropWhile pyIsSpace l, ← h2]
  simp [pyStrip, List.append_assoc]

theorem no_dashes_line {x : List Char} (h : findSep dashes x = none) :
    ∀ l ∈ splitlinesKeepends x, ¬ pyStrip l = dashes := by
  intro l hl hstrip
  obtain ⟨p, q, hx⟩ := mem_splitlines_occursIn hl
  obtain ⟨p2, q2, hl2⟩ := pyStrip_infix l
  apply not_occursIn_of_findSep_none h
  refine ⟨p ++ p2, q2 ++ q, ?_⟩
  rw [hx, hl2, hstrip]
  simp

/-! ## Locating the closing delimiter line and fixed-position lines -/

theorem findIdx?_append_first {α : Type} (p : α → Bool) (A B : List α) (y : α)
    (hA : ∀ l ∈ A, p l = false) (hy : p y = true) :
    List.findIdx? p (A ++ y :: B) = some A.length := by
  induction A with
  | nil => simp [List.findIdx?_cons, hy]
  | cons a A ih =>
    have ha : p a = false := hA a (by simp)
    have ih' := ih (fun l hl => hA l (by simp [hl]))
    simp [List.findIdx?_cons, ha, ih']

theorem getD_append_length {α : Type} (A B : List α) (k : Nat) (d : α) :
    (A ++ B).getD (A.length + k) d = B.getD k d := by
  rw [List.getD_append_right A B d (A.length + k) (Nat.le_add_right _ _)]
  simp

theorem findClosing_shape (Lm rest : List (List Char))
    (hLm : ∀ l ∈ Lm, ¬ pyStrip l = dashes) :
    findClosing (dashNL :: (Lm ++ dashNL :: rest)) = some (Lm.length + 1) := by
  rw [show findClosing (dashNL :: (Lm ++ dashNL :: rest)) =
    (List.findIdx? (fun l => decide (pyStrip l = dashes)) (Lm ++ dashNL :: rest)).map
      (· + 1) from rfl]
  rw [findIdx?_append_first _ Lm rest dashNL
    (fun l hl => by simpa using hLm l hl) (by decide)]
  rfl

theorem formattingErrors_shape (Lm Lh : List (List Char)) (h0 : List Char)
    (hLm : ∀ l ∈ Lm, ¬ pyStrip l = dashes) :
    formattingErrors (dashNL :: (Lm ++ dashNL :: ['\n'] :: h0 :: Lh)) =
      if (pyStrip h0).headD ' ' = '#' then [] else [headingMsg (Lm.length + 4) h0] := by
  have hgetD1 : (dashNL :: (Lm ++ dashNL :: ['\n'] :: h0 :: Lh)).getD (Lm.length + 2) [] =
      ['\n'] := by
    rw [show dashNL :: (Lm ++ dashNL :: ['\n'] :: h0 :: Lh) =
      (dashNL :: Lm ++ [dashNL]) ++ ['\n'] :: h0 :: Lh by simp]
    rw [List.getD_append_right _ _ _ _ (by simp)]
    simp
  have hgetD2 : (dashNL :: (Lm ++ dashNL :: ['\n'] :: h0 :: Lh)).getD (Lm.length + 3) [] =
      h0 := by
    rw [show dashNL :: (Lm ++ dashNL :: ['\n'] :: h0 :: Lh) =
      (dashNL :: Lm ++ [dashNL, ['\n']]) ++ h0 :: Lh by simp]
    rw [List.getD_append_right _ _ _ _ (by simp)]
    simp
  have hlen : (dashNL :: (Lm ++ dashNL :: ['\n'] :: h0 :: Lh)).length =
      Lm.length + 4 + Lh.length := by
    simp
    omega
  unfold formattingErrors
  rw [findClosing_shape Lm (['\n'] :: h0 :: Lh) hLm]
  simp only [hlen]
  rw [if_neg (by omega)]
  have e1 : Lm.length + 1 + 1 = Lm.length + 2 := by omega
  have e2 : Lm.length + 1 + 2 = Lm.length + 3 := by omega
  have e3 : Lm.length + 1 + 3 = Lm.length + 4 := by omega
  rw [e1, e2, e3, hgetD1, hgetD2]
  rw [if_pos (by decide), if_neg (by omega)]
  simp

/-! ## Decomposing an assembled document -/

theorem mkDoc_data (m h : String) :
    (mkDoc m h).data =
      dashes ++ (('\n' :: m.data) ++ (dashes ++ ('\n' :: '\n' :: h.data))) := by
  show ("---\n" ++ m ++ "---\n\n" ++ h).data = _
  rw [String.data_append, String.data_append, String.data_append]
  rw [show ("---\n" : String).data = dashes ++ ['\n'] from rfl,
    show ("---\n\n" : String).data = dashes ++ ['\n', '\n'] from rfl]
  simp

theorem mkDoc_startsWith (m h : String) :
    listStartsWith dashes (mkDoc m h).data = true := by
  rw [mkDoc_data]
  exact listStartsWith_append _ _

theorem metaLast (m : String) (hm : m.data.getLast? = some '\n' ∨ m.data = []) :
    ('\n' :: m.data).getLast? = some '\n' := by
  rcases hmd : m.data with _ | ⟨c, cs⟩
  · rfl
  · rw [List.getLast?_cons_cons]
    rcases hm with hm | hm
    · rw [← hmd]; exact hm
    · rw [hmd] at hm; exact absurd hm (by simp)

theorem splitSep_mkDoc (m h : String) (hm : m.data.getLast? = some '\n' ∨ m.data = [])
    (hno : findSep dashes ('\n' :: m.data) = none) :
    splitSep dashes 2 (mkDoc m h).data =
      [[], '\n' :: m.data, '\n' :: '\n' :: h.data] := by
  rw [mkDoc_data]
  exact splitSep_doc _ _ (metaLast m hm) hno

theorem splitlines_mkDoc (m h : String) (hm : m.data.getLast? = some '\n' ∨ m.data = []) :
    splitlinesKeepends (mkDoc m h).data =
      dashNL :: (splitlinesKeepends m.data ++
        dashNL :: ['\n'] :: splitlinesKeepends h.data) := by
  have hd : (mkDoc m h).data =
      ("---\n" : String).data ++ (m.data ++ (("---\n" : String).data ++
        (("\n" : String).data ++ h.data))) := by
    show ("---\n" ++ m ++ "---\n\n" ++ h).data = _
    rw [String.data_append, String.data_append, String.data_append]
    rw [show ("---\n\n" : String).data = ("---\n" : String).data ++ ("\n" : String).data
      from rfl]
    simp
  rw [hd]
  rw [splitlines_append _ _ (by decide)]
  have hrest : splitlinesKeepends (("---\n" : String).data ++
      (("\n" : String).data ++ h.data)) =
      dashNL :: ['\n'] :: splitlinesKeepends h.data := by
    rw [splitlines_append _ _ (by decide), splitlines_append _ _ (by decide)]
    rfl
  rcases hm with hm | hm
  · rw [splitlines_append _ _ hm, hrest]
    rfl
  · rw [hm]
    simp only [List.nil_append]
    rw [hrest]
    have : splitlinesKeepends (("" : String).data) = [] := rfl
    rw [show (("" : String).data : List Char) = [] from rfl] at this
    simp [this, splitlinesKeepends, splitlinesAux]
    rfl

/-! ## The validator under fixed structural outcomes -/

theorem validate_eq_of_dict (content : String) (f b : List Char)
    (d : List (String × Yaml))
    (h1 : listStartsWith dashes content.data = true)
    (h2 : splitSep dashes 2 content.data = [[], f, b])
    (h3 : yaml_safe_load f = .ok (.dict d)) :
    validate_mdc_file content =
      ((schemaErrors d ++ formattingErrors (splitlinesKeepends content.data)).isEmpty,
        schemaErrors d ++ formattingErrors (splitlinesKeepends content.data)) := by
  unfold validate_mdc_file
  simp only [h1, h2, h3]
  norm_num
  rw [h3]

theorem validate_eq_missing_closing (content : String)
    (h1 : listStartsWith dashes content.data = true)
    (h2 : (splitSep dashes 2 content.data).length < 3) :
    validate_mdc_file content = (false, [missingClosingMsg]) := by
  unfold validate_mdc_file
  simp only [h1]
  norm_num
  intro hc
  exact absurd hc (by omega)

theorem validate_eq_not_dict (content : String) (f b : List Char) (v : Yaml)
    (h1 : listStartsWith dashes content.data = true)
    (h2 : splitSep dashes 2 content.data = [[], f, b])
    (h3 : yaml_safe_load f = .ok v)
    (h4 : ∀ d, ¬ v = .dict d) :
    validate_mdc_file content = (false, [notDictMsg]) := by
  unfold validate_mdc_file
  simp only [h1, h2]
  norm_num
  rw [h3]
  cases v with
  | dict d => exact absurd rfl (h4 d)
  | null => rfl
  | bool b => rfl
  | int n => rfl
  | str s => rfl
  | list l => rfl

theorem splitChar_subset (c : Char) :
    ∀ (x : List Char), ∀ l ∈ splitChar c x, ∀ ch ∈ l, ch ∈ x := by
  intro x
  induction x with
  | nil =>
    intro l hl ch hch
    simp only [splitChar, List.mem_singleton] at hl
    subst hl
    simp at hch
  | cons a xs ih =>
    intro l hl ch hch
    by_cases hac : a = c
    · rw [show splitChar c (a :: xs) = [] :: splitChar c xs by simp [splitChar, hac]] at hl
      rcases List.mem_cons.mp hl with hl | hl
      · subst hl; simp at hch
      · exact List.mem_cons_of_mem _ (ih l hl ch hch)
    · rcases hr : splitChar c xs with _ | ⟨h0, t⟩
      · rw [show splitChar c (a :: xs) = [[a]] by simp [splitChar, hac, hr]] at hl
        simp only [List.mem_singleton] at hl
        subst hl
        simp only [List.mem_singleton] at hch
        subst hch
        simp
      · rw [show splitChar c (a :: xs) = (a :: h0) :: t by simp [splitChar, hac, hr]] at hl
        rcases List.mem_cons.mp hl with hl | hl
        · subst hl
          rcases List.mem_cons.mp hch with hch | hch
          · subst hch; simp
          · have h0mem : h0 ∈ splitChar c xs := by
              rw [hr]; exact List.mem_cons_self _ _
            exact List.mem_cons_of_mem _ (ih h0 h0mem ch hch)
        · have lmem : l ∈ splitChar c xs := by
            rw [hr]; exact List.mem_cons_of_mem _ hl
          exact List.mem_cons_of_mem _ (ih l lmem ch hch)

theorem pyStrip_nil_of_space {x : List Char} (hx : ∀ c ∈ x, pyIsSpace c = true) :
    pyStrip x = [] := by
  unfold pyStrip
  rw [List.dropWhile_eq_nil_iff.mpr hx]
  rfl

theorem yaml_safe_load_blank (f : List Char) (hf : ∀ c ∈ f, pyIsSpace c = true) :
    yaml_safe_load f = .ok .null := by
  unfold yaml_safe_load
  have hnil : (splitChar '\n' f).filter (fun x => !(pyStrip x).isEmpty) = [] := by
    rw [List.filter_eq_nil_iff]
    intro x hx
    have : pyStrip x = [] :=
      pyStrip_nil_of_space (fun c hc => hf c (splitChar_subset '\n' f x hx c hc))
    simp [this]
  simp only [hnil]
  rfl

theorem schemaErrors_eq_nil (d : List (String × Yaml)) (ds : String)
    (gs : List Yaml) (bv : Bool)
    (hd : lookupKey d "description" = some (.str ds))
    (hds : ¬ pyStrip ds.data = [])
    (hg : lookupKey d "globs" = some (.list gs))
    (ha : lookupKey d "alwaysApply" = some (.bool bv)) :
    schemaErrors d = [] := by
  unfold schemaErrors descriptionErrors globsErrors alwaysApplyErrors
  rw [hd, hg, ha]
  simp [hds]

theorem formattingErrors_eq_some (lines : List (List Char)) (i : Nat)
    (h4 : findClosing lines = some i) :
    formattingErrors lines =
      if lines.length ≤ i + 1 then [noContentMsg]
      else
        (if pyStrip (lines.getD (i + 1) []) = [] then [] else [blankMsg (i + 2)]) ++
        (if lines.length ≤ i + 2 then [noContentAfterBlankMsg]
         else if (pyStrip (lines.getD (i + 2) [])).headD ' ' = '#' then []
         else [headingMsg (i + 3) (lines.getD (i + 2) [])]) := by
  unfold formattingErrors
  rw [h4]

/-! ## The claims -/

/-- Claim C2: on a decoded metadata mapping the `alwaysApply` key must exist
and its value must be strictly boolean-typed: a missing key and a string or
integer value each yield exactly the corresponding defect, a boolean value
yields none; and the example document carrying `alwaysApply: "true"` is
invalid with exactly the one wrong-type defect for `alwaysApply`. -/
theorem C2_alwaysApply_requires_bool :
    (∀ d, lookupKey d "alwaysApply" = none →
      alwaysApplyErrors d = [missingAlwaysMsg]) ∧
    (∀ d s, lookupKey d "alwaysApply" = some (.str s) →
      alwaysApplyErrors d = [alwaysTypeMsg]) ∧
    (∀ d n, lookupKey d "alwaysApply" = some (.int n) →
      alwaysApplyErrors d = [alwaysTypeMsg]) ∧
    (∀ d bv, lookupKey d "alwaysApply" = some (.bool bv) →
      alwaysApplyErrors d = []) ∧
    validate_mdc_file
        "---\ndescription: x\nglobs: [a]\nalwaysApply: \"true\"\n---\n\n# Title\n" =
      (false, [alwaysTypeMsg]) := by
  refine ⟨fun d hd => ?_, fun d s hd => ?_, fun d n hd => ?_, fun d bv hd => ?_, ?_⟩
  · unfold alwaysApplyErrors; rw [hd]
  · unfold alwaysApplyErrors; rw [hd]
  · unfold alwaysApplyErrors; rw [hd]
  · unfold alwaysApplyErrors; rw [hd]
  · decide

theorem C2_witness :
    alwaysApplyErrors [("alwaysApply", Yaml.str "true")] = [alwaysTypeMsg] :=
  C2_alwaysApply_requires_bool.2.1 [("alwaysApply", Yaml.str "true")] "true" rfl

/-- Claim C3 is false on the code: the globs check is only an `isinstance
list` test and never inspects elements. The document whose globs value is
the list `[1]` — a list holding a non-string — decodes exactly so, yet
validates as valid with zero defects, where the claim demands a defect. -/
theorem C3_counterexample :
    yaml_safe_load ("\ndescription: x\nglobs: [1]\nalwaysApply: true\n" : String).data =
      .ok (.dict [("description", Yaml.str "x"), ("globs", Yaml.list [Yaml.int 1]),
        ("alwaysApply", Yaml.bool true)]) ∧
    validate_mdc_file "---\ndescription: x\nglobs: [1]\nalwaysApply: true\n---\n\n# Title\n" =
      (true, []) :=
  ⟨rfl, by decide⟩

/-- Claim C3 (amended): the globs field passes validation exactly when it is
list-typed; element types are never examined, so a list with non-string
elements passes, while a missing key or non-list value yields the
corresponding defect. -/
theorem C3_globs_checked_list_only :
    (∀ d, lookupKey d "globs" = none → globsErrors d = [missingGlobsMsg]) ∧
    (∀ d vs, lookupKey d "globs" = some (.list vs) → globsErrors d = []) ∧
    (∀ d v, lookupKey d "globs" = some v → v.isList = false →
      globsErrors d = [globsTypeMsg]) := by
  refine ⟨fun d hd => ?_, fun d vs hd => ?_, fun d v hd hv => ?_⟩
  · unfold globsErrors; rw [hd]
  · unfold globsErrors; rw [hd]
  · unfold globsErrors; rw [hd]
    cases v <;> simp_all [Yaml.isList]

theorem C3_witness :
    globsErrors [("globs", Yaml.list [Yaml.int 1])] = [] :=
  C3_globs_checked_list_only.2.1 [("globs", Yaml.list [Yaml.int 1])] [Yaml.int 1] rfl

/-- Claim C5: when the structural phase passes (opening delimiter, three
split parts, mapping metadata) but no line after the first strips to `---`,
validation reports every schema defect followed by the
could-not-find-closing-delimiter defect, and the blank-line and heading
checks are skipped. -/
theorem C5_no_closing_line_schema_still_reported (content : String)
    (f b : List Char) (d : List (String × Yaml))
    (h1 : listStartsWith dashes content.data = true)
    (h2 : splitSep dashes 2 content.data = [[], f, b])
    (h3 : yaml_safe_load f = .ok (.dict d))
    (h4 : findClosing (splitlinesKeepends content.data) = none) :
    validate_mdc_file content = (false, schemaErrors d ++ [closingScanMsg]) := by
  have hv := validate_eq_of_dict content f b d h1 h2 h3
  have hfmt : formattingErrors (splitlinesKeepends content.data) = [closingScanMsg] := by
    unfold formattingErrors
    rw [h4]
  rw [hv, hfmt]
  simp [List.isEmpty_iff]

theorem C5_witness :
    validate_mdc_file "---\ndescription: 1\nglobs: a---b\n" =
      (false, schemaErrors [("description", Yaml.int 1), ("globs", Yaml.str "a")] ++
        [closingScanMsg]) :=
  C5_no_closing_line_schema_still_reported "---\ndescription: 1\nglobs: a---b\n"
    ("\ndescription: 1\nglobs: a" : String).data ("b\n" : String).data
    [("description", Yaml.int 1), ("globs", Yaml.str "a")]
    (by decide) (by decide) rfl (by decide)

/-- Claim C6: a non-list globs value is recorded as the globs-type defect
while the description and alwaysApply checks still run in the same pass —
the three schema checks accumulate and never short-circuit one another;
concretely, a document with scalar globs and otherwise-good fields gets
exactly the globs defect, and one failing all three gets all three. -/
theorem C6_globs_scalar_accumulates :
    (∀ d v, lookupKey d "globs" = some v → v.isList = false →
      schemaErrors d = descriptionErrors d ++ [globsTypeMsg] ++ alwaysApplyErrors d) ∧
    validate_mdc_file "---\ndescription: x\nglobs: a\nalwaysApply: true\n---\n\n# T\n" =
      (false, [globsTypeMsg]) ∧
    validate_mdc_file "---\ndescription: \"\"\nglobs: a\nalwaysApply: 1\n---\n\n# T\n" =
      (false, [descEmptyMsg, globsTypeMsg, alwaysTypeMsg]) := by
  refine ⟨fun d v hd hv => ?_, by decide, by decide⟩
  unfold schemaErrors globsErrors
  rw [hd]
  cases v <;> simp_all [Yaml.isList]

theorem C6_witness :
    schemaErrors [("globs", Yaml.str "a")] =
      descriptionErrors [("globs", Yaml.str "a")] ++ [globsTypeMsg] ++
        alwaysApplyErrors [("globs", Yaml.str "a")] :=
  C6_globs_scalar_accumulates.1 [("globs", Yaml.str "a")] (Yaml.str "a") rfl rfl

/-- Claim C7: a document that starts with the opening delimiter but whose
capped split on `---` yields fewer than three parts is invalid with exactly
the one missing-closing-delimiter defect and no further checks run. -/
theorem C7_no_closing_single_defect (content : String)
    (h1 : listStartsWith dashes content.data = true)
    (h2 : (splitSep dashes 2 content.data).length < 3) :
    validate_mdc_file content = (false, [missingClosingMsg]) :=
  validate_eq_missing_closing content h1 h2

theorem C7_witness :
    validate_mdc_file "---\nabc" = (false, [missingClosingMsg]) :=
  C7_no_closing_single_defect "---\nabc" (by decide) (by decide)

/-- Claim C8: on every input — including a read failure and every early
return — the validity flag is true exactly when the defect list is empty. -/
theorem C8_valid_iff_defects_empty (input : Except String String) :
    (validate_mdc_input input).1 = true ↔ (validate_mdc_input input).2 = [] := by
  rcases input with e | content
  · simp [validate_mdc_input]
  · simp only [validate_mdc_input]
    unfold validate_mdc_file
    by_cases hc1 : listStartsWith dashes content.data = false
    · rw [if_pos hc1]
      simp
    · rw [if_neg hc1]
      by_cases hc2 : (splitSep dashes 2 content.data).length < 3
      · rw [if_pos hc2]
        simp
      · rw [if_neg hc2]
        split
        · simp
        · simp [List.isEmpty_iff]
        · simp

/-- Claim C9: with the closing delimiter line at 0-based index `i`, the
heading check always examines the fixed physical line `i + 3`; when line
`i + 2` is not blank, the missing-blank-line defect and the heading verdict
for line `i + 3` are both recorded, after all schema defects. -/
theorem C9_blank_and_heading_checks_accumulate (content : String) (f b : List Char)
    (d : List (String × Yaml)) (i : Nat)
    (h1 : listStartsWith dashes content.data = true)
    (h2 : splitSep dashes 2 content.data = [[], f, b])
    (h3 : yaml_safe_load f = .ok (.dict d))
    (h4 : findClosing (splitlinesKeepends content.data) = some i)
    (h5 : i + 2 < (splitlinesKeepends content.data).length)
    (h6 : ¬ pyStrip ((splitlinesKeepends content.data).getD (i + 1) []) = []) :
    validate_mdc_file content =
      (false, schemaErrors d ++ ([blankMsg (i + 2)] ++
        (if (pyStrip ((splitlinesKeepends content.data).getD (i + 2) [])).headD ' ' = '#'
          then []
          else [headingMsg (i + 3)
            ((splitlinesKeepends content.data).getD (i + 2) [])]))) := by
  have hv := validate_eq_of_dict content f b d h1 h2 h3
  have hfmt : formattingErrors (splitlinesKeepends content.data) =
      [blankMsg (i + 2)] ++
        (if (pyStrip ((splitlinesKeepends content.data).getD (i + 2) [])).headD ' ' = '#'
          then []
          else [headingMsg (i + 3)
            ((splitlinesKeepends content.data).getD (i + 2) [])]) := by
    rw [formattingErrors_eq_some _ i h4]
    rw [if_neg (by omega)]
    rw [if_neg h6]
    rw [if_neg (by omega)]
  rw [hv, hfmt]
  simp [List.isEmpty_iff]

theorem C9_witness :
    validate_mdc_file "---\ndescription: x\nglobs: [a]\nalwaysApply: true\n---\nA\nB\n" =
      (false, [blankMsg 6, headingMsg 7 ("B\n" : String).data]) := by
  have hres := C9_blank_and_heading_checks_accumulate
    "---\ndescription: x\nglobs: [a]\nalwaysApply: true\n---\nA\nB\n"
    ("\ndescription: x\nglobs: [a]\nalwaysApply: true\n" : String).data
    ("\nA\nB\n" : String).data
    [("description", Yaml.str "x"), ("globs", Yaml.list [Yaml.str "a"]),
      ("alwaysApply", Yaml.bool true)] 4
    (by decide) (by decide) rfl (by decide) (by decide) (by decide)
  rw [hres]
  decide

/-- Claim C10: when the region between the two delimiters is empty or
whitespace-only, the decode yields null and validation returns invalid with
exactly the frontmatter-is-not-a-dictionary defect — not a syntax error and
not missing-field defects. -/
theorem C10_whitespace_frontmatter_not_dict (content : String) (f b : List Char)
    (h1 : listStartsWith dashes content.data = true)
    (h2 : splitSep dashes 2 content.data = [[], f, b])
    (hf : ∀ c ∈ f, pyIsSpace c = true) :
    validate_mdc_file content = (false, [notDictMsg]) := by
  apply validate_eq_not_dict content f b Yaml.null h1 h2 (yaml_safe_load_blank f hf)
  intro d hcon
  exact Yaml.noConfusion hcon

theorem C10_witness :
    validate_mdc_file "---\n \n---\n\n# T\n" = (false, [notDictMsg]) :=
  C10_whitespace_frontmatter_not_dict "---\n \n---\n\n# T\n"
    ("\n \n" : String).data ("\n\n# T\n" : String).data
    (by decide) (by decide) (by decide)

theorem lines_getD_heading (Lm Lh : List (List Char)) (h0 : List Char) :
    (dashNL :: (Lm ++ dashNL :: ['\n'] :: h0 :: Lh)).getD (Lm.length + 3) [] = h0 := by
  rw [show dashNL :: (Lm ++ dashNL :: ['\n'] :: h0 :: Lh) =
    (dashNL :: Lm ++ [dashNL, ['\n']]) ++ h0 :: Lh by simp]
  rw [List.getD_append_right _ _ _ _ (by simp)]
  simp

theorem headingMsg_data (n : Nat) (line : List Char) :
    (headingMsg n line).data =
      ("Content does not start with heading \x27#\x27 (line " : String).data ++
        ((toString n).data ++ ((" starts with: " : String).data ++
          (pyRepr (line.take 50) ++ (")" : String).data))) := by
  unfold headingMsg
  rw [String.data_append, String.data_append, String.data_append, String.data_append]
  simp [String.mk]

/-- Claim C1: every well-formed document — opening delimiter line, metadata
that decodes to a mapping carrying a non-blank string description, a list
globs, and a boolean alwaysApply, a closing delimiter line, a blank
separator line, then a heading line — validates as valid with zero
defects. -/
theorem C1_wellformed_valid (m h : String) (d : List (String × Yaml))
    (ds : String) (gs : List Yaml) (bv : Bool)
    (hm : m.data.getLast? = some '\n' ∨ m.data = [])
    (hno : findSep dashes ('\n' :: m.data) = none)
    (hy : yaml_safe_load ('\n' :: m.data) = .ok (.dict d))
    (hd : lookupKey d "description" = some (.str ds))
    (hds : ¬ pyStrip ds.data = [])
    (hg : lookupKey d "globs" = some (.list gs))
    (ha : lookupKey d "alwaysApply" = some (.bool bv))
    (hh : ¬ h.data = [])
    (hhead : (pyStrip ((splitlinesKeepends h.data).headD [])).headD ' ' = '#') :
    validate_mdc_file (mkDoc m h) = (true, []) := by
  obtain ⟨h0, Ht, hsh⟩ := List.exists_cons_of_ne_nil (splitlines_ne_nil hh)
  have hv := validate_eq_of_dict (mkDoc m h) _ _ d (mkDoc_startsWith m h)
    (splitSep_mkDoc m h hm hno) hy
  have hlines := splitlines_mkDoc m h hm
  rw [hsh] at hlines
  have hLm := no_dashes_line (findSep_cons_none hno)
  have hfmt := formattingErrors_shape (splitlinesKeepends m.data) Ht h0 hLm
  rw [hsh] at hhead
  simp only [List.headD_cons] at hhead
  rw [if_pos hhead] at hfmt
  rw [hv, hlines, hfmt, schemaErrors_eq_nil d ds gs bv hd hds hg ha]
  simp

theorem C1_witness :
    validate_mdc_file "---\ndescription: x\nglobs: [a]\nalwaysApply: true\n---\n\n# Title\n" =
      (true, []) := by
  have hres := C1_wellformed_valid "description: x\nglobs: [a]\nalwaysApply: true\n"
    "# Title\n"
    [("description", Yaml.str "x"), ("globs", Yaml.list [Yaml.str "a"]),
      ("alwaysApply", Yaml.bool true)] "x" [Yaml.str "a"] true
    (Or.inl (by decide)) (by decide) rfl rfl (by decide) rfl rfl (by decide) (by decide)
  exact hres

/-- Claim C4: when the first content line after the blank separator does not
start (after stripping) with a heading marker and sits at physical 1-based
line N, the validator records a formatting defect whose message carries the
line number N and the first 50 characters of that line in repr display. -/
theorem C4_nonheading_defect_msg (m h : String) (d : List (String × Yaml))
    (hm : m.data.getLast? = some '\n' ∨ m.data = [])
    (hno : findSep dashes ('\n' :: m.data) = none)
    (hy : yaml_safe_load ('\n' :: m.data) = .ok (.dict d))
    (hh : ¬ h.data = [])
    (hhead : ¬ (pyStrip ((splitlinesKeepends h.data).headD [])).headD ' ' = '#') :
    (splitlinesKeepends (mkDoc m h).data).getD ((splitlinesKeepends m.data).length + 3) []
        = (splitlinesKeepends h.data).headD [] ∧
    headingMsg ((splitlinesKeepends m.data).length + 4)
        ((splitlinesKeepends h.data).headD []) ∈ (validate_mdc_file (mkDoc m h)).2 ∧
    occursIn (toString ((splitlinesKeepends m.data).length + 4)).data
        (headingMsg ((splitlinesKeepends m.data).length + 4)
          ((splitlinesKeepends h.data).headD [])).data ∧
    occursIn (pyRepr (((splitlinesKeepends h.data).headD []).take 50))
        (headingMsg ((splitlinesKeepends m.data).length + 4)
          ((splitlinesKeepends h.data).headD [])).data := by
  obtain ⟨h0, Ht, hsh⟩ := List.exists_cons_of_ne_nil (splitlines_ne_nil hh)
  have hlines := splitlines_mkDoc m h hm
  rw [hsh] at hlines
  have hLm := no_dashes_line (findSep_cons_none hno)
  have hfmt := formattingErrors_shape (splitlinesKeepends m.data) Ht h0 hLm
  rw [hsh] at hhead ⊢
  simp only [List.headD_cons] at hhead ⊢
  rw [if_neg hhead] at hfmt
  refine ⟨?_, ?_, ?_, ?_⟩
  · rw [hlines]
    exact lines_getD_heading _ _ _
  · have hv := validate_eq_of_dict (mkDoc m h) _ _ d (mkDoc_startsWith m h)
      (splitSep_mkDoc m h hm hno) hy
    rw [hv]
    rw [show (((schemaErrors d ++ formattingErrors (splitlinesKeepends (mkDoc m h).data)).isEmpty,
      schemaErrors d ++ formattingErrors (splitlinesKeepends (mkDoc m h).data)) :
        Bool × List String).2 =
      schemaErrors d ++ formattingErrors (splitlinesKeepends (mkDoc m h).data) from rfl]
    rw [hlines, hfmt]
    simp
  · exact ⟨("Content does not start with heading \x27#\x27 (line " : String).data,
      (" starts with: " : String).data ++ (pyRepr (h0.take 50) ++ (")" : String).data),
      by rw [headingMsg_data]; simp⟩
  · exact ⟨("Content does not start with heading \x27#\x27 (line " : String).data ++
        ((toString ((splitlinesKeepends m.data).length + 4)).data ++
          (" starts with: " : String).data),
      (")" : String).data,
      by rw [headingMsg_data]; simp⟩

theorem C4_witness :
    (splitlinesKeepends
        (mkDoc "description: x\nglobs: [a]\nalwaysApply: true\n" "Not a heading\n").data).getD
        6 [] = ("Not a heading\n" : String).data ∧
    headingMsg 7 ("Not a heading\n" : String).data ∈
      (validate_mdc_file
        (mkDoc "description: x\nglobs: [a]\nalwaysApply: true\n" "Not a heading\n")).2 ∧
    occursIn (toString 7).data (headingMsg 7 ("Not a heading\n" : String).data).data ∧
    occursIn (pyRepr (("Not a heading\n" : String).data.take 50))
      (headingMsg 7 ("Not a heading\n" : String).data).data := by
  have hres := C4_nonheading_defect_msg "description: x\nglobs: [a]\nalwaysApply: true\n"
    "Not a heading\n"
    [("description", Yaml.str "x"), ("globs", Yaml.list [Yaml.str "a"]),
      ("alwaysApply", Yaml.bool true)]
    (Or.inl (by decide)) (by decide) rfl (by decide) (by decide)
  exact hres
